import Mathlib

/-
Verification of the website-status checker (wing.py) and the file-seeker
utility (seeker.py).

The checker is embedded shallowly:
  * the network is an oracle assigning to each URL either a response or a
    raised exception;
  * the per-URL try/except/else block of get_status becomes a total function
    into an Except type (an .error result would mean an exception escaping
    the worker);
  * the shared queue.Queue is a FIFO list of items together with the
    unfinished-tasks counter maintained by put and task_done, exactly as in
    CPython; queue.join unblocks when the counter reaches zero;
  * the four worker threads of check_website_status are modelled by a
    small-step interleaving semantics: each worker is a program counter, a
    schedule chooses which worker acts next, and each atomic action is one
    of: the emptiness test of the while loop, the (blocking) get, the
    HTTP request together with the classified write, and the final
    task_done.
-/

/- ===== Outcome classification of one URL (get_status body) ===== -/

inductive OutStream
  | stdout
  | stderr
deriving DecidableEq, Repr

/-- The exceptions that requests.get and raise_for_status can raise: an
HTTPError, or any other Exception (timeout, connection error, DNS failure,
malformed URL, ...). -/
inductive PyExn
  | httpError
  | otherExn
deriving DecidableEq, Repr

structure Response where
  status : Nat
deriving DecidableEq, Repr

/-- Result of a call to requests.get: a response, or a raised exception. -/
inductive GetResult
  | ok (r : Response)
  | raises (e : PyExn)
deriving DecidableEq, Repr

/-- response.raise_for_status: raises HTTPError exactly on 4xx/5xx codes. -/
def raise_for_status (r : Response) : Except PyExn Unit :=
  if 400 ≤ r.status ∧ r.status < 600 then .error .httpError else .ok ()

/-- requests.get(url, timeout=5) against the network oracle. -/
def requests_get (http : String → GetResult) (url : String) : Except PyExn Response :=
  match http url with
  | .ok r => .ok r
  | .raises e => .error e

/-- The try block of get_status: perform the GET, then raise_for_status. -/
def try_block (http : String → GetResult) (url : String) : Except PyExn Unit :=
  match requests_get http url with
  | .error e => .error e
  | .ok r => raise_for_status r

/-- except HTTPError matches only HTTPError instances. -/
def matches_HTTPError : PyExn → Bool
  | .httpError => true
  | .otherExn => false

/-- except Exception matches every exception in our model (HTTPError is a
subclass of Exception; BaseException interrupts are out of scope). -/
def matches_Exception : PyExn → Bool
  | _ => true

/-- The whole try/except/except/else block of get_status for one URL: the
result is the single line written for that URL together with its stream; an
.error result would be an exception escaping the worker (re-raised because no
handler matched). -/
def get_status_body (http : String → GetResult) (url : String) :
    Except PyExn (OutStream × String) :=
  match try_block http url with
  | .ok _ => .ok (.stdout, "Successfully connected to " ++ url ++ "\n")
  | .error e =>
      if matches_HTTPError e then .ok (.stderr, "HTTP error occurred for " ++ url ++ "\n")
      else if matches_Exception e then .ok (.stderr, "Error occurred for " ++ url ++ "\n")
      else .error e

/- ===== URL source and queue construction ===== -/

/-- Python str.isspace on the ASCII whitespace characters stripped by
str.strip(). -/
def py_isspace (c : Char) : Bool :=
  c == ' ' || c == '\t' || c == '\n' || c == '\r' || c == '\x0b' || c == '\x0c'

/-- Python str.strip(): drop leading and trailing whitespace. -/
def py_strip (s : String) : String :=
  String.mk (((s.data.dropWhile py_isspace).reverse.dropWhile py_isspace).reverse)

inductive PyIOError
  | fileNotFound
deriving DecidableEq, Repr

/-- load_urls_from_file: the filesystem maps a filename to its list of lines
(or nothing, when the file cannot be opened, in which case open raises).
Every line is stripped; no line is filtered out. -/
def load_urls_from_file (fs : String → Option (List String)) (filename : String) :
    Except PyIOError (List String) :=
  match fs filename with
  | none => .error .fileNotFound
  | some ls => .ok (ls.map py_strip)

/-- queue.Queue state: the FIFO of pending items plus the unfinished-tasks
counter (incremented by put, decremented by task_done, awaited by join). -/
structure PyQueue where
  items : List String
  unfinished : Nat
deriving DecidableEq, Repr

def PyQueue.empty : PyQueue := ⟨[], 0⟩

/-- queue.Queue.put: append the item and count one more unfinished task. -/
def PyQueue.put (q : PyQueue) (u : String) : PyQueue :=
  ⟨q.items ++ [u], q.unfinished + 1⟩

/-- get_queue: put every URL, in order, into a fresh queue. -/
def get_queue (urls : List String) : PyQueue :=
  urls.foldl PyQueue.put PyQueue.empty

/- ===== The worker-pool small-step semantics ===== -/

/-- Program counter of one worker thread running get_status.  loopHead is the
emptiness test of the while loop; getting is the point after the test
succeeded, just before the blocking q.get(); processing holds the dequeued
URL before the GET and the write; acking is the finally block about to call
q.task_done(); done is natural loop exit; crashed would be an exception
escaping the loop. -/
inductive WorkerPC
  | loopHead
  | getting
  | processing (url : String)
  | acking (url : String)
  | done
  | crashed
deriving DecidableEq, Repr

/-- One line written to a stream, remembering which URL produced it. -/
structure OutLine where
  url : String
  stream : OutStream
  text : String
deriving DecidableEq, Repr

/-- Global state: the shared queue, the four workers, and the log of written
lines (each write+flush is line-atomic). -/
structure Sys where
  queue : PyQueue
  workers : List WorkerPC
  out : List OutLine
deriving DecidableEq, Repr

/-- check_website_status just after spawning its four threads: every worker
is at the top of the while loop, nothing written yet. -/
def check_website_status_start (q : PyQueue) : Sys :=
  ⟨q, List.replicate 4 .loopHead, []⟩

/-- main up to the point where the workers start: load the URLs (propagating
a file-access failure), build the queue, spawn the pool. -/
def main_setup (fs : String → Option (List String)) (input : String) :
    Except PyIOError Sys :=
  match load_urls_from_file fs input with
  | .error e => .error e
  | .ok urls => .ok (check_website_status_start (get_queue urls))

/-- One atomic action of the worker whose program counter is pc. -/
def stepPC (http : String → GetResult) (s : Sys) (i : Nat) : WorkerPC → Option Sys
  | .loopHead =>
      match s.queue.items with
      | [] => some { s with workers := s.workers.set i .done }
      | _ :: _ => some { s with workers := s.workers.set i .getting }
  | .getting =>
      match s.queue.items with
      | [] => none
      | u :: rest =>
          some { s with queue := { s.queue with items := rest },
                        workers := s.workers.set i (.processing u) }
  | .processing u =>
      match get_status_body http u with
      | .ok (st, ln) =>
          some { s with out := s.out ++ [⟨u, st, ln⟩],
                        workers := s.workers.set i (.acking u) }
      | .error _ => some { s with workers := s.workers.set i .crashed }
  | .acking _ =>
      some { s with queue := { s.queue with unfinished := s.queue.unfinished - 1 },
                    workers := s.workers.set i .loopHead }
  | .done => none
  | .crashed => none

/-- One step of worker i, if it can act: a worker that has terminated cannot
act, and a worker inside the blocking q.get() of an empty queue cannot act
either (no producer will ever wake it). -/
def stepWorker (http : String → GetResult) (s : Sys) (i : Nat) : Option Sys :=
  match s.workers[i]? with
  | none => none
  | some pc => stepPC http s i pc

/-- Run a schedule: at each schedule entry the named worker acts if it can,
otherwise the state is left unchanged. -/
def exec (http : String → GetResult) (s : Sys) : List Nat → Sys
  | [] => s
  | i :: rest => exec http ((stepWorker http s i).getD s) rest

/-- States reachable from s₀ under some interleaving. -/
inductive Reachable (http : String → GetResult) (s₀ : Sys) : Sys → Prop
  | init : Reachable http s₀ s₀
  | step (s s' : Sys) (i : Nat) :
      Reachable http s₀ s → stepWorker http s i = some s' → Reachable http s₀ s'

/-- The URLs currently held by workers that have dequeued them but not yet
written their line. -/
def inflightOf : WorkerPC → Option String
  | .processing u => some u
  | _ => none

def inflightL (ws : List WorkerPC) : List String :=
  ws.filterMap inflightOf

/-- The URLs dequeued but not yet acknowledged by task_done: held by a worker
that is processing or sitting in the finally block. -/
def unackedOf : WorkerPC → Option String
  | .processing u => some u
  | .acking u => some u
  | _ => none

def unackedL (ws : List WorkerPC) : List String :=
  ws.filterMap unackedOf

/-- All four worker threads have exited their while loop. -/
def allDone (s : Sys) : Prop :=
  ∀ pc ∈ s.workers, pc = .done

/-- queue.join() (wait_until_drained) unblocks exactly when the
unfinished-tasks counter is zero. -/
def join_unblocked (s : Sys) : Prop :=
  s.queue.unfinished = 0

/-- A network oracle for concrete runs: every URL answers 200. -/
def httpOk : String → GetResult :=
  fun _ => .ok ⟨200⟩

/-- The run of check_website_status on a one-URL queue in which workers 0 and
1 both pass the emptiness test before either dequeues: worker 0 takes the
item and finishes; worker 1 is left inside the blocking q.get(). -/
def deadlock_run : Sys :=
  exec httpOk (check_website_status_start (get_queue ["http://a.example"]))
    [0, 1, 0, 0, 0, 0, 2, 3]

instance (s : Sys) : Decidable (allDone s) :=
  decidable_of_iff (∀ pc ∈ s.workers, pc = WorkerPC.done) Iff.rfl

instance (s : Sys) : Decidable (join_unblocked s) :=
  decidable_of_iff (s.queue.unfinished = 0) Iff.rfl

/-- The inductive invariant of the worker pool: the worker count is stable;
the unfinished-tasks counter counts the pending items plus the dequeued items
not yet acknowledged; the initial URLs are split, as a multiset, into pending
items, items held by a worker that has not yet written its line, and items
whose line is in the output log; every logged line is the classified line of
its URL; and no worker has crashed. -/
structure PoolInv (http : String → GetResult) (urls : List String) (s : Sys) : Prop where
  nworkers : s.workers.length = 4
  count : s.queue.unfinished = s.queue.items.length + (unackedL s.workers).length
  split : (↑urls : Multiset String)
      = ↑s.queue.items + ↑(inflightL s.workers) + ↑(s.out.map OutLine.url)
  out_ok : ∀ e ∈ s.out, get_status_body http e.url = Except.ok (e.stream, e.text)
  no_crash : ∀ pc ∈ s.workers, pc ≠ WorkerPC.crashed

/- ===== The file-seeker utility (seeker.py) ===== -/

/-- Python str.lstrip(chars): repeatedly remove the first character as long
as it belongs to chars. -/
def py_lstrip (chars : List Char) : List Char → List Char
  | [] => []
  | c :: rest => if c ∈ chars then py_lstrip chars rest else c :: rest

/-- sanitize_extension: extension.lstrip("."). -/
def sanitize_extension (extension : String) : String :=
  String.mk (py_lstrip ['.'] extension.data)

/- ===== Helper lemmas ===== -/

theorem foldl_put (urls : List String) :
    ∀ q : PyQueue, urls.foldl PyQueue.put q =
      ⟨q.items ++ urls, q.unfinished + urls.length⟩ := by
  induction urls with
  | nil => intro q; simp
  | cons u rest ih =>
      intro q
      simp only [List.foldl_cons, ih, PyQueue.put]
      simp only [List.append_assoc, List.singleton_append, List.length_cons]
      congr 1
      omega

theorem get_queue_eq (urls : List String) :
    get_queue urls = ⟨urls, urls.length⟩ := by
  simp [get_queue, foldl_put, PyQueue.empty]

theorem exec_reachable (http : String → GetResult) (s₀ : Sys) :
    ∀ (sched : List Nat) (s : Sys), Reachable http s₀ s →
      Reachable http s₀ (exec http s sched) := by
  intro sched
  induction sched with
  | nil => intro s h; exact h
  | cons i rest ih =>
      intro s h
      simp only [exec]
      cases hstep : stepWorker http s i with
      | none => exact ih s (by simpa [hstep] using h)
      | some s' =>
          simp only [hstep, Option.getD_some]
          exact ih s' (Reachable.step s s' i h hstep)

/-- get_status_body never lets an exception escape: the two except clauses
together cover every exception the try block can raise. -/
theorem get_status_body_total (http : String → GetResult) (url : String) :
    ∃ p : OutStream × String, get_status_body http url = .ok p := by
  unfold get_status_body
  cases h : try_block http url with
  | ok v => exact ⟨_, rfl⟩
  | error e => cases e <;> simp [matches_HTTPError, matches_Exception]

theorem dropWhile_dropWhile {α : Type} (p : α → Bool) (l : List α) :
    (l.dropWhile p).dropWhile p = l.dropWhile p := by
  induction l with
  | nil => rfl
  | cons c rest ih =>
      by_cases h : p c
      · simp [List.dropWhile_cons, h, ih]
      · simp [List.dropWhile_cons, h]

theorem py_lstrip_eq_dropWhile (chars : List Char) (l : List Char) :
    py_lstrip chars l = l.dropWhile (fun c => decide (c ∈ chars)) := by
  induction l with
  | nil => rfl
  | cons c rest ih =>
      by_cases h : c ∈ chars
      · simp [py_lstrip, List.dropWhile_cons, h, ih]
      · simp [py_lstrip, List.dropWhile_cons, h]

theorem filterMap_set_multiset {α β : Type} (f : α → Option β) :
    ∀ (l : List α) (i : Nat) (a b : α), l[i]? = some a →
      (↑((l.set i b).filterMap f) : Multiset β) + ↑(f a).toList
        = ↑(l.filterMap f) + ↑(f b).toList := by
  intro l
  induction l with
  | nil => intro i a b h; simp at h
  | cons x xs ih =>
      intro i a b h
      cases i with
      | zero =>
          have hxa : x = a := by simpa using h
          subst hxa
          simp only [List.set_cons_zero, List.filterMap_cons]
          cases hfa : f x <;> cases hfb : f b <;>
            simp only [hfa, hfb, Option.toList_some, Option.toList_none,
              ← Multiset.cons_coe, ← Multiset.singleton_add, Multiset.coe_nil,
              Multiset.coe_singleton] <;> abel
      | succ n =>
          simp only [List.getElem?_cons_succ] at h
          simp only [List.set_cons_succ, List.filterMap_cons]
          cases hfx : f x with
          | none => simpa using ih n a b h
          | some y =>
              have hih := ih n a b h
              simp only [← Multiset.cons_coe, ← Multiset.singleton_add]
              rw [add_assoc, add_assoc, hih]

theorem filterMap_set_length {α β : Type} (f : α → Option β) (l : List α)
    (i : Nat) (a b : α) (h : l[i]? = some a) :
    ((l.set i b).filterMap f).length + (f a).toList.length
      = (l.filterMap f).length + (f b).toList.length := by
  have hc := congrArg Multiset.card (filterMap_set_multiset f l i a b h)
  simpa using hc

theorem mem_set_cases {α : Type} (l : List α) (i : Nat) (b x : α)
    (h : x ∈ l.set i b) : x ∈ l ∨ x = b :=
  List.mem_or_eq_of_mem_set h

theorem set_mem_self {α : Type} (l : List α) (i : Nat) (a b : α)
    (h : l[i]? = some a) : b ∈ l.set i b :=
  List.getElem?_mem (List.getElem?_set_self (List.getElem?_eq_some.mp h).1)

theorem exec_stuck (http : String → GetResult) (s : Sys)
    (h : ∀ i : Nat, stepWorker http s i = none) :
    ∀ sched : List Nat, exec http s sched = s := by
  intro sched
  induction sched with
  | nil => rfl
  | cons i rest ih => simp [exec, h i, ih]

theorem stuck_of_bounded (http : String → GetResult) (s : Sys)
    (h4 : ∀ i < s.workers.length, stepWorker http s i = none) :
    ∀ i : Nat, stepWorker http s i = none := by
  intro i
  by_cases hi : i < s.workers.length
  · exact h4 i hi
  · simp [stepWorker, List.getElem?_eq_none (Nat.le_of_not_lt hi)]

theorem unackedL_nil_inflightL_nil (ws : List WorkerPC) (h : unackedL ws = []) :
    inflightL ws = [] := by
  rw [unackedL, List.filterMap_eq_nil_iff] at h
  rw [inflightL, List.filterMap_eq_nil_iff]
  intro pc hpc
  have := h pc hpc
  cases pc <;> simp_all [unackedOf, inflightOf]

theorem inv_init (http : String → GetResult) (urls : List String) :
    PoolInv http urls (check_website_status_start (get_queue urls)) := by
  rw [get_queue_eq]
  refine ⟨rfl, ?_, ?_, ?_, ?_⟩
  · show urls.length = urls.length + (unackedL (List.replicate 4 .loopHead)).length
    simp [unackedL, List.filterMap, unackedOf, List.replicate]
  · show (↑urls : Multiset String)
        = ↑urls + ↑(inflightL (List.replicate 4 .loopHead)) + ↑(([] : List OutLine).map OutLine.url)
    simp [inflightL, List.filterMap, inflightOf, List.replicate]
  · intro e he
    simp [check_website_status_start] at he
  · intro pc hpc
    have := List.eq_of_mem_replicate hpc
    subst this
    simp

theorem poolInv_workers_only (http : String → GetResult) (urls : List String)
    (s : Sys) (i : Nat) (pc pc' : WorkerPC)
    (hw : s.workers[i]? = some pc)
    (hpc : unackedOf pc = none) (hpc' : unackedOf pc' = none)
    (hipc : inflightOf pc = none) (hipc' : inflightOf pc' = none)
    (hcr' : pc' ≠ WorkerPC.crashed)
    (hi : PoolInv http urls s) :
    PoolInv http urls { s with workers := s.workers.set i pc' } := by
  obtain ⟨hn, hc, hsp, ho, hcr⟩ := hi
  refine ⟨by simp [hn], ?_, ?_, ho, ?_⟩
  · simp only [unackedL] at hc ⊢
    have hlen := filterMap_set_length unackedOf s.workers i pc pc' hw
    rw [hpc, hpc'] at hlen
    simp only [Option.toList_none, List.length_nil, Nat.add_zero] at hlen
    rw [hlen]
    exact hc
  · simp only [inflightL] at hsp ⊢
    have hm := filterMap_set_multiset inflightOf s.workers i pc pc' hw
    rw [hipc, hipc'] at hm
    simp only [Option.toList_none, Multiset.coe_nil, add_zero] at hm
    rw [hm]
    exact hsp
  · intro x hx
    rcases mem_set_cases _ _ _ _ hx with h | h
    · exact hcr x h
    · subst h; exact hcr'

theorem inv_step (http : String → GetResult) (urls : List String) (s s' : Sys)
    (i : Nat) (hi : PoolInv http urls s) (hst : stepWorker http s i = some s') :
    PoolInv http urls s' := by
  unfold stepWorker at hst
  cases hw : s.workers[i]? with
  | none => rw [hw] at hst; simp at hst
  | some pc =>
      rw [hw] at hst
      cases pc with
      | loopHead =>
          cases hq : s.queue.items with
          | nil =>
              simp only [stepPC, hq, Option.some.injEq] at hst
              subst hst
              exact poolInv_workers_only http urls s i WorkerPC.loopHead WorkerPC.done hw
                rfl rfl rfl rfl (by simp) hi
          | cons u rest =>
              simp only [stepPC, hq, Option.some.injEq] at hst
              subst hst
              exact poolInv_workers_only http urls s i WorkerPC.loopHead WorkerPC.getting hw
                rfl rfl rfl rfl (by simp) hi
      | getting =>
          cases hq : s.queue.items with
          | nil => simp [stepPC, hq] at hst
          | cons u rest =>
              simp only [stepPC, hq, Option.some.injEq] at hst
              subst hst
              obtain ⟨hn, hc, hsp, ho, hcr⟩ := hi
              refine ⟨by simp [hn], ?_, ?_, ho, ?_⟩
              · simp only [unackedL] at hc ⊢
                have hlen := filterMap_set_length unackedOf s.workers i
                  WorkerPC.getting (WorkerPC.processing u) hw
                simp only [unackedOf, Option.toList_none, Option.toList_some,
                  List.length_nil, List.length_cons, Nat.add_zero] at hlen
                rw [hq] at hc
                simp only [List.length_cons] at hc
                omega
              · simp only [inflightL] at hsp ⊢
                have hm := filterMap_set_multiset inflightOf s.workers i
                  WorkerPC.getting (WorkerPC.processing u) hw
                simp only [inflightOf, Option.toList_none, Option.toList_some,
                  Multiset.coe_nil, add_zero] at hm
                rw [hq] at hsp
                rw [hm, hsp]
                simp only [← Multiset.cons_coe, ← Multiset.singleton_add,
                  Multiset.coe_singleton]
                abel
              · intro x hx
                rcases mem_set_cases _ _ _ _ hx with h | h
                · exact hcr x h
                · subst h; simp
      | processing u =>
          obtain ⟨⟨st, ln⟩, hb⟩ := get_status_body_total http u
          simp only [stepPC, hb, Option.some.injEq] at hst
          subst hst
          obtain ⟨hn, hc, hsp, ho, hcr⟩ := hi
          refine ⟨by simp [hn], ?_, ?_, ?_, ?_⟩
          · simp only [unackedL] at hc ⊢
            have hlen := filterMap_set_length unackedOf s.workers i
              (WorkerPC.processing u) (WorkerPC.acking u) hw
            simp only [unackedOf, Option.toList_some, List.length_cons,
              List.length_nil] at hlen
            omega
          · simp only [inflightL] at hsp ⊢
            have hm := filterMap_set_multiset inflightOf s.workers i
              (WorkerPC.processing u) (WorkerPC.acking u) hw
            simp only [inflightOf, Option.toList_some, Option.toList_none,
              Multiset.coe_nil, add_zero] at hm
            rw [← hm] at hsp
            rw [hsp]
            simp only [List.map_append, List.map_cons, List.map_nil,
              ← Multiset.coe_add, ← Multiset.cons_coe, ← Multiset.singleton_add,
              Multiset.coe_nil, Multiset.coe_singleton]
            abel
          · intro e he
            rcases List.mem_append.mp he with h | h
            · exact ho e h
            · simp only [List.mem_singleton] at h
              subst h
              exact hb
          · intro x hx
            rcases mem_set_cases _ _ _ _ hx with h | h
            · exact hcr x h
            · subst h; simp
      | acking u =>
          simp only [stepPC, Option.some.injEq] at hst
          subst hst
          obtain ⟨hn, hc, hsp, ho, hcr⟩ := hi
          refine ⟨by simp [hn], ?_, ?_, ho, ?_⟩
          · simp only [unackedL] at hc ⊢
            have hlen := filterMap_set_length unackedOf s.workers i
              (WorkerPC.acking u) WorkerPC.loopHead hw
            simp only [unackedOf, Option.toList_some, Option.toList_none,
              List.length_cons, List.length_nil, Nat.add_zero] at hlen
            omega
          · simp only [inflightL] at hsp ⊢
            have hm := filterMap_set_multiset inflightOf s.workers i
              (WorkerPC.acking u) WorkerPC.loopHead hw
            simp only [inflightOf, Option.toList_none, Multiset.coe_nil,
              add_zero] at hm
            rw [hm]
            exact hsp
          · intro x hx
            rcases mem_set_cases _ _ _ _ hx with h | h
            · exact hcr x h
            · subst h; simp
      | done => simp [stepPC] at hst
      | crashed => simp [stepPC] at hst

theorem inv_reachable (http : String → GetResult) (urls : List String) (s : Sys)
    (hr : Reachable http (check_website_status_start (get_queue urls)) s) :
    PoolInv http urls s := by
  induction hr with
  | init => exact inv_init http urls
  | step s0 s1 i h0 hstep ih => exact inv_step http urls s0 s1 i ih hstep

theorem allDone_unackedL (s : Sys) (h : allDone s) : unackedL s.workers = [] := by
  rw [unackedL, List.filterMap_eq_nil_iff]
  intro pc hpc
  rw [h pc hpc]
  rfl

theorem set_forces_done (ws : List WorkerPC) (i : Nat) (pc pc' : WorkerPC)
    (hw : ws[i]? = some pc) (hall : ∀ x ∈ ws.set i pc', x = WorkerPC.done) :
    pc' = WorkerPC.done :=
  hall pc' (set_mem_self ws i pc pc' hw)

theorem step_allDone_items (http : String → GetResult) (s s' : Sys) (i : Nat)
    (hst : stepWorker http s i = some s') (hd : allDone s') : s'.queue.items = [] := by
  unfold stepWorker at hst
  cases hw : s.workers[i]? with
  | none => rw [hw] at hst; simp at hst
  | some pc =>
      rw [hw] at hst
      cases pc with
      | loopHead =>
          cases hq : s.queue.items with
          | nil =>
              simp only [stepPC, hq, Option.some.injEq] at hst
              subst hst
              exact hq
          | cons u rest =>
              simp only [stepPC, hq, Option.some.injEq] at hst
              subst hst
              have hd' : ∀ x ∈ s.workers.set i WorkerPC.getting, x = WorkerPC.done := hd
              exact WorkerPC.noConfusion (set_forces_done _ _ _ _ hw hd')
      | getting =>
          cases hq : s.queue.items with
          | nil => simp [stepPC, hq] at hst
          | cons u rest =>
              simp only [stepPC, hq, Option.some.injEq] at hst
              subst hst
              have hd' : ∀ x ∈ s.workers.set i (WorkerPC.processing u),
                  x = WorkerPC.done := hd
              exact WorkerPC.noConfusion (set_forces_done _ _ _ _ hw hd')
      | processing u =>
          obtain ⟨⟨st, ln⟩, hb⟩ := get_status_body_total http u
          simp only [stepPC, hb, Option.some.injEq] at hst
          subst hst
          have hd' : ∀ x ∈ s.workers.set i (WorkerPC.acking u),
              x = WorkerPC.done := hd
          exact WorkerPC.noConfusion (set_forces_done _ _ _ _ hw hd')
      | acking u =>
          simp only [stepPC, Option.some.injEq] at hst
          subst hst
          have hd' : ∀ x ∈ s.workers.set i WorkerPC.loopHead, x = WorkerPC.done := hd
          exact WorkerPC.noConfusion (set_forces_done _ _ _ _ hw hd')
      | done => simp [stepPC] at hst
      | crashed => simp [stepPC] at hst

theorem allDone_run_complete (http : String → GetResult) (urls : List String)
    (s : Sys)
    (hr : Reachable http (check_website_status_start (get_queue urls)) s)
    (hd : allDone s) :
    s.queue.items = [] ∧ s.queue.unfinished = 0 ∧
      (↑urls : Multiset String) = ↑(s.out.map OutLine.url) := by
  have hpi := inv_reachable http urls s hr
  have hun : unackedL s.workers = [] := allDone_unackedL s hd
  have hin : inflightL s.workers = [] := unackedL_nil_inflightL_nil _ hun
  have hitems : s.queue.items = [] := by
    cases hr with
    | init =>
        exfalso
        have hmem : WorkerPC.loopHead
            ∈ (check_website_status_start (get_queue urls)).workers := by
          simp [check_website_status_start, List.mem_replicate]
        exact WorkerPC.noConfusion (hd _ hmem)
    | step s0 s1 i h0 hstep => exact step_allDone_items http s0 s i hstep hd
  refine ⟨hitems, ?_, ?_⟩
  · have hc := hpi.count
    rw [hitems, hun] at hc
    simpa using hc
  · have hs := hpi.split
    rw [hitems, hin] at hs
    simpa using hs

theorem join_drained (http : String → GetResult) (urls : List String) (s : Sys)
    (hr : Reachable http (check_website_status_start (get_queue urls)) s)
    (h0 : s.queue.unfinished = 0) :
    s.queue.items = [] ∧ unackedL s.workers = [] ∧ inflightL s.workers = [] ∧
      (↑urls : Multiset String) = ↑(s.out.map OutLine.url) := by
  have hpi := inv_reachable http urls s hr
  have hc := hpi.count
  rw [h0] at hc
  have hitems : s.queue.items = [] := List.length_eq_zero.mp (by omega)
  have hun : unackedL s.workers = [] := List.length_eq_zero.mp (by omega)
  have hin := unackedL_nil_inflightL_nil _ hun
  refine ⟨hitems, hun, hin, ?_⟩
  have hs := hpi.split
  rw [hitems, hin] at hs
  simpa using hs

/- ===== Claims ===== -/

/-- C1: every URL a worker processes is classified into exactly one of three
cases, each rendered with the exact newline-terminated line on the exact
stream: a GET that succeeds with a non-error status writes the success line
to stdout; a GET answered with an HTTP error status (or raising HTTPError)
writes the HTTP-error line to stderr; any other failure writes the generic
error line to stderr. -/
theorem claim_C1_outcome_classification (http : String → GetResult) (url : String) :
    (∀ r, http url = .ok r → ¬(400 ≤ r.status ∧ r.status < 600) →
      get_status_body http url =
        .ok (.stdout, "Successfully connected to " ++ url ++ "\n")) ∧
    (∀ r, http url = .ok r → 400 ≤ r.status → r.status < 600 →
      get_status_body http url =
        .ok (.stderr, "HTTP error occurred for " ++ url ++ "\n")) ∧
    (http url = .raises .httpError →
      get_status_body http url =
        .ok (.stderr, "HTTP error occurred for " ++ url ++ "\n")) ∧
    (http url = .raises .otherExn →
      get_status_body http url =
        .ok (.stderr, "Error occurred for " ++ url ++ "\n")) := by
  refine ⟨?_, ?_, ?_, ?_⟩
  · intro r h hn
    simp [get_status_body, try_block, requests_get, h, raise_for_status, hn]
  · intro r h h4 h6
    simp [get_status_body, try_block, requests_get, h, raise_for_status, h4, h6,
      matches_HTTPError]
  · intro h
    simp [get_status_body, try_block, requests_get, h, matches_HTTPError]
  · intro h
    simp [get_status_body, try_block, requests_get, h, matches_HTTPError,
      matches_Exception]

theorem claim_C1_outcome_classification_witness :
    get_status_body httpOk "http://x" =
      .ok (.stdout, "Successfully connected to " ++ "http://x" ++ "\n") ∧
    get_status_body (fun _ => .ok ⟨404⟩) "http://x" =
      .ok (.stderr, "HTTP error occurred for " ++ "http://x" ++ "\n") ∧
    get_status_body (fun _ => .raises .otherExn) "not a url" =
      .ok (.stderr, "Error occurred for " ++ "not a url" ++ "\n") :=
  ⟨(claim_C1_outcome_classification httpOk "http://x").1 ⟨200⟩ rfl (by decide),
   (claim_C1_outcome_classification (fun _ => .ok ⟨404⟩) "http://x").2.1 ⟨404⟩ rfl
     (by decide) (by decide),
   (claim_C1_outcome_classification (fun _ => .raises .otherExn) "not a url").2.2.2 rfl⟩

/-- C7: if the URL source cannot be opened, loading fails with a file-access
error that nothing catches: main aborts before the queue is built and before
any worker starts, and this is the only failure that aborts the whole run. -/
theorem claim_C7_input_failure_aborts (fs : String → Option (List String))
    (input : String) :
    (fs input = none →
      load_urls_from_file fs input = .error .fileNotFound ∧
      main_setup fs input = .error .fileNotFound) ∧
    (∀ e, main_setup fs input = .error e → fs input = none) ∧
    (∀ ls, fs input = some ls →
      main_setup fs input =
        .ok (check_website_status_start (get_queue (ls.map py_strip)))) := by
  refine ⟨?_, ?_, ?_⟩
  · intro h
    exact ⟨by simp [load_urls_from_file, h], by simp [main_setup, load_urls_from_file, h]⟩
  · intro e h
    cases hfs : fs input with
    | none => rfl
    | some ls => simp [main_setup, load_urls_from_file, hfs] at h
  · intro ls h
    simp [main_setup, load_urls_from_file, h]

theorem claim_C7_input_failure_aborts_witness :
    main_setup (fun _ => none) "urls.txt" = .error .fileNotFound ∧
    main_setup (fun _ => some ["http://a.example"]) "urls.txt" =
      .ok (check_website_status_start (get_queue (["http://a.example"].map py_strip))) :=
  ⟨((claim_C7_input_failure_aborts (fun _ => none) "urls.txt").1 rfl).2,
   (claim_C7_input_failure_aborts (fun _ => some ["http://a.example"]) "urls.txt").2.2
     ["http://a.example"] rfl⟩

/-- C8: loading maps every input line, in order, to exactly one work item —
the line trimmed of surrounding whitespace; blank lines are not filtered (a
blank line becomes an empty-string item), and the queue is populated with the
items in input order. -/
theorem claim_C8_load_order_blank_lines (fs : String → Option (List String))
    (input : String) (ls : List String) (h : fs input = some ls) :
    load_urls_from_file fs input = .ok (ls.map py_strip) ∧
    (ls.map py_strip).length = ls.length ∧
    (∀ i : Nat, (ls.map py_strip)[i]? = (ls[i]?).map py_strip) ∧
    (get_queue (ls.map py_strip)).items = ls.map py_strip ∧
    (get_queue (ls.map py_strip)).unfinished = ls.length ∧
    (∀ l ∈ ls, (∀ c ∈ l.data, py_isspace c = true) → py_strip l = "") := by
  refine ⟨?_, ?_, ?_, ?_, ?_, ?_⟩
  · simp [load_urls_from_file, h]
  · simp
  · intro i
    exact List.getElem?_map py_strip ls i
  · simp [get_queue_eq]
  · simp [get_queue_eq]
  · intro l _ hblank
    have h1 : l.data.dropWhile py_isspace = [] := by
      rw [List.dropWhile_eq_nil_iff]
      intro c hc
      exact hblank c hc
    simp [py_strip, h1]

theorem claim_C8_load_order_blank_lines_witness :
    load_urls_from_file (fun _ => some [" http://a.example ", "   ", ""]) "urls.txt" =
      .ok ([" http://a.example ", "   ", ""].map py_strip) ∧
    [" http://a.example ", "   ", ""].map py_strip = ["http://a.example", "", ""] :=
  ⟨(claim_C8_load_order_blank_lines (fun _ => some [" http://a.example ", "   ", ""])
      "urls.txt" [" http://a.example ", "   ", ""] rfl).1,
   by decide⟩

/-- C10: sanitize_extension removes the whole maximal run of leading dots
(not only a single one): it equals dropWhile of dots, it is idempotent, and
".py", "..py" and "py" all sanitize to "py". -/
theorem claim_C10_sanitize_extension (s : String) :
    sanitize_extension s = String.mk (s.data.dropWhile (fun c => c == '.')) ∧
    sanitize_extension (sanitize_extension s) = sanitize_extension s ∧
    sanitize_extension ".py" = "py" ∧
    sanitize_extension "..py" = "py" ∧
    sanitize_extension "py" = "py" := by
  have hdw : ∀ t : List Char, py_lstrip ['.'] t = t.dropWhile (fun c => c == '.') := by
    intro t
    rw [py_lstrip_eq_dropWhile]
    congr 1
    funext c
    simp only [List.mem_singleton]
    rfl
  refine ⟨?_, ?_, by decide, by decide, by decide⟩
  · simp [sanitize_extension, hdw]
  · simp [sanitize_extension, hdw, dropWhile_dropWhile]

/-- C2: in a complete run (all four workers have reached natural termination)
the output log holds exactly one line per enqueued URL — the multiset of
reported URLs is a permutation of the loaded list, so no URL is reported
twice and none is dropped — and the queue is empty, every enqueued item
having been handed to exactly one worker. -/
theorem claim_C2_exactly_one_line_per_url (http : String → GetResult)
    (urls : List String) (s : Sys)
    (hr : Reachable http (check_website_status_start (get_queue urls)) s)
    (hd : allDone s) :
    s.queue.items = [] ∧ urls.Perm (s.out.map OutLine.url) := by
  have h := allDone_run_complete http urls s hr hd
  exact ⟨h.1, Multiset.coe_eq_coe.mp h.2.2⟩

theorem claim_C2_exactly_one_line_per_url_witness :
    (exec httpOk (check_website_status_start (get_queue
      ["http://a.example", "http://b.example"]))
      [0, 0, 0, 0, 0, 0, 0, 0, 0, 1, 2, 3]).queue.items = [] ∧
    ["http://a.example", "http://b.example"].Perm
      ((exec httpOk (check_website_status_start (get_queue
        ["http://a.example", "http://b.example"]))
        [0, 0, 0, 0, 0, 0, 0, 0, 0, 1, 2, 3]).out.map OutLine.url) :=
  claim_C2_exactly_one_line_per_url httpOk ["http://a.example", "http://b.example"] _
    (exec_reachable httpOk _ [0, 0, 0, 0, 0, 0, 0, 0, 0, 1, 2, 3] _ Reachable.init)
    (by decide)

/-- C3: per-URL failures are contained in the worker: the per-item handler
never lets an exception escape (both except clauses together cover every
raisable exception, so it always returns a line), hence no reachable state
has a crashed worker, and even under an oracle failing every request a
complete run still reports every URL. -/
theorem claim_C3_failure_containment (http : String → GetResult)
    (urls : List String) (s : Sys)
    (hr : Reachable http (check_website_status_start (get_queue urls)) s) :
    (∀ url, ∃ p, get_status_body http url = .ok p) ∧
    (∀ pc ∈ s.workers, pc ≠ WorkerPC.crashed) ∧
    (allDone s → urls.Perm (s.out.map OutLine.url)) :=
  ⟨fun url => get_status_body_total http url,
   (inv_reachable http urls s hr).no_crash,
   fun hd => Multiset.coe_eq_coe.mp (allDone_run_complete http urls s hr hd).2.2⟩

theorem claim_C3_failure_containment_witness :
    ["http://u.example", "http://v.example"].Perm
      ((exec (fun _ => GetResult.raises PyExn.otherExn)
        (check_website_status_start (get_queue
          ["http://u.example", "http://v.example"]))
        [0, 0, 0, 0, 0, 0, 0, 0, 0, 1, 2, 3]).out.map OutLine.url) :=
  (claim_C3_failure_containment (fun _ => GetResult.raises PyExn.otherExn)
    ["http://u.example", "http://v.example"] _
    (exec_reachable (fun _ => GetResult.raises PyExn.otherExn) _
      [0, 0, 0, 0, 0, 0, 0, 0, 0, 1, 2, 3] _ Reachable.init)).2.2 (by decide)

/-- C4: acknowledgment is the unconditional cleanup of every dequeued item: a
worker that has written its line for URL u — whichever of the three outcome
branches produced it — always moves to the finally block, and the finally
step is always enabled, calls task_done exactly once (the unfinished count
drops by exactly one) and returns the worker to the loop head, so a failed
URL never blocks queue drainage. -/
theorem claim_C4_ack_always_runs (http : String → GetResult) (s : Sys)
    (i : Nat) (u : String) :
    (s.workers[i]? = some (WorkerPC.processing u) → ∀ st ln,
      get_status_body http u = .ok (st, ln) →
      stepWorker http s i =
        some { s with out := s.out ++ [⟨u, st, ln⟩],
                      workers := s.workers.set i (WorkerPC.acking u) }) ∧
    (s.workers[i]? = some (WorkerPC.acking u) →
      stepWorker http s i =
        some { s with
                queue := { s.queue with unfinished := s.queue.unfinished - 1 },
                workers := s.workers.set i WorkerPC.loopHead }) := by
  constructor
  · intro hw st ln hb
    simp [stepWorker, hw, stepPC, hb]
  · intro hw
    simp [stepWorker, hw, stepPC]

theorem claim_C4_ack_always_runs_witness :
    stepWorker httpOk ⟨⟨[], 1⟩, [WorkerPC.acking "http://w.example", WorkerPC.done,
        WorkerPC.done, WorkerPC.done], []⟩ 0 =
      some ⟨⟨[], 0⟩, [WorkerPC.loopHead, WorkerPC.done, WorkerPC.done,
        WorkerPC.done], []⟩ ∧
    stepWorker httpOk ⟨⟨[], 1⟩, [WorkerPC.processing "http://w.example",
        WorkerPC.done, WorkerPC.done, WorkerPC.done], []⟩ 0 =
      some ⟨⟨[], 1⟩,
        [WorkerPC.acking "http://w.example", WorkerPC.done, WorkerPC.done,
          WorkerPC.done],
        [⟨"http://w.example", OutStream.stdout,
          "Successfully connected to http://w.example\n"⟩]⟩ := by
  constructor
  · have h := (claim_C4_ack_always_runs httpOk
      ⟨⟨[], 1⟩, [WorkerPC.acking "http://w.example", WorkerPC.done, WorkerPC.done,
        WorkerPC.done], []⟩ 0 "http://w.example").2 rfl
    exact h
  · have h := (claim_C4_ack_always_runs httpOk
      ⟨⟨[], 1⟩, [WorkerPC.processing "http://w.example", WorkerPC.done,
        WorkerPC.done, WorkerPC.done], []⟩ 0 "http://w.example").1 rfl
      OutStream.stdout "Successfully connected to http://w.example\n" rfl
    exact h

/-- C5 is refuted by the code: q.get() is a blocking get, so a worker that
passes the emptiness test of the while loop just before another worker drains
the queue blocks forever inside get.  After the interleaving recorded in
deadlock_run (one URL, workers 0 and 1 both pass the test, worker 0 takes the
item), the queue is drained and join unblocks, workers 0, 2, 3 are done, but
worker 1 sits in q.get(): no worker can take any step under any schedule, so
worker 1 never reaches natural termination and joining it never completes —
the run fails to terminate on a finite input list. -/
theorem claim_C5_blocking_get_prevents_termination :
    deadlock_run.queue.items = [] ∧
    deadlock_run.queue.unfinished = 0 ∧
    deadlock_run.workers =
      [WorkerPC.done, WorkerPC.getting, WorkerPC.done, WorkerPC.done] ∧
    (∀ i : Nat, stepWorker httpOk deadlock_run i = none) ∧
    (∀ sched : List Nat, exec httpOk deadlock_run sched = deadlock_run) := by
  have hstuck : ∀ i : Nat, stepWorker httpOk deadlock_run i = none := by
    apply stuck_of_bounded
    decide
  exact ⟨by decide, by decide, by decide, hstuck,
    exec_stuck httpOk deadlock_run hstuck⟩

/-- C6: the drain wait never unblocks early: in every reachable state in
which queue.join() would unblock (unfinished-tasks count zero), every
enqueued item has been dequeued (the queue is empty), every dequeued item has
been acknowledged (no worker still holds one, in flight or in the finally
block), and each item has already produced its one output line. -/
theorem claim_C6_join_never_premature (http : String → GetResult)
    (urls : List String) (s : Sys)
    (hr : Reachable http (check_website_status_start (get_queue urls)) s)
    (hj : join_unblocked s) :
    s.queue.items = [] ∧ unackedL s.workers = [] ∧ inflightL s.workers = [] ∧
      urls.Perm (s.out.map OutLine.url) := by
  have h := join_drained http urls s hr hj
  exact ⟨h.1, h.2.1, h.2.2.1, Multiset.coe_eq_coe.mp h.2.2.2⟩

theorem claim_C6_join_never_premature_witness :
    (exec httpOk (check_website_status_start (get_queue ["http://c.example"]))
      [0, 0, 0, 0]).queue.items = [] ∧
    unackedL (exec httpOk (check_website_status_start (get_queue
      ["http://c.example"])) [0, 0, 0, 0]).workers = [] ∧
    inflightL (exec httpOk (check_website_status_start (get_queue
      ["http://c.example"])) [0, 0, 0, 0]).workers = [] ∧
    ["http://c.example"].Perm
      ((exec httpOk (check_website_status_start (get_queue
        ["http://c.example"])) [0, 0, 0, 0]).out.map OutLine.url) :=
  claim_C6_join_never_premature httpOk ["http://c.example"] _
    (exec_reachable httpOk _ [0, 0, 0, 0] _ Reachable.init) (by decide)

/-- C9: the pool is fixed at exactly four workers: check_website_status
spawns four threads whatever queue it is given, its interface carries no
worker-count parameter, and every reachable state of a run still has exactly
those four workers — the number of concurrent workers never exceeds four. -/
theorem claim_C9_four_workers (http : String → GetResult) (urls : List String)
    (s : Sys) (q : PyQueue)
    (hr : Reachable http (check_website_status_start (get_queue urls)) s) :
    (check_website_status_start q).workers.length = 4 ∧ s.workers.length = 4 :=
  ⟨by simp [check_website_status_start], (inv_reachable http urls s hr).nworkers⟩

theorem claim_C9_four_workers_witness :
    (check_website_status_start (get_queue ["http://d.example"])).workers.length = 4 ∧
    (exec httpOk (check_website_status_start (get_queue ["http://d.example"]))
      [0, 1, 2]).workers.length = 4 :=
  claim_C9_four_workers httpOk ["http://d.example"] _
    (get_queue ["http://d.example"])
    (exec_reachable httpOk _ [0, 1, 2] _ Reachable.init)
